import Mathlib

namespace Adn

/-! # Model of the CSV ingestion and KPI rebuild engine

Shallow embedding of the dashboard repository: the sanitize function and
column mapping of the upload handlers (api/upload.js variants), the record
construction of the structured CSV parse, the batched truncate-and-insert
load with and without a surrounding transaction, and the KPI artifact
rebuilder of api/_kpi.js. JavaScript strings are modelled through their
character lists. -/

/-! ## JavaScript string primitives -/

/-- Code points removed by String.prototype.trim: the WhiteSpace and
LineTerminator productions of ECMAScript. -/
def isJsWhitespace (c : Char) : Bool :=
  c.val == 0x09 || c.val == 0x0A || c.val == 0x0B || c.val == 0x0C ||
  c.val == 0x0D || c.val == 0x20 || c.val == 0xA0 || c.val == 0x1680 ||
  (0x2000 ≤ c.val && c.val ≤ 0x200A) ||
  c.val == 0x2028 || c.val == 0x2029 || c.val == 0x202F || c.val == 0x205F ||
  c.val == 0x3000 || c.val == 0xFEFF

/-- String.prototype.trim on the character list: drop leading and trailing
whitespace. -/
def jsTrimChars (l : List Char) : List Char :=
  ((l.dropWhile isJsWhitespace).reverse.dropWhile isJsWhitespace).reverse

/-- Character-wise model of String.prototype.normalize with form NFKD,
covering the code points this development exercises: identity on ASCII and
the canonical decomposition (base letter followed by a combining mark) of
the precomposed Latin letters that occur in the header data of this
repository. -/
def nfkdChar (c : Char) : List Char :=
  match c with
  | 'á' => ['a', '\u0301'] | 'é' => ['e', '\u0301'] | 'í' => ['i', '\u0301']
  | 'ó' => ['o', '\u0301'] | 'ú' => ['u', '\u0301']
  | 'Á' => ['A', '\u0301'] | 'É' => ['E', '\u0301'] | 'Í' => ['I', '\u0301']
  | 'Ó' => ['O', '\u0301'] | 'Ú' => ['U', '\u0301']
  | 'ñ' => ['n', '\u0303'] | 'Ñ' => ['N', '\u0303']
  | 'ü' => ['u', '\u0308'] | 'Ü' => ['U', '\u0308']
  | _ => [c]

/-- normalize applied to a whole character list. -/
def nfkdChars (l : List Char) : List Char := (l.map nfkdChar).flatten

/-- Combining diacritical marks U+0300 to U+036F, the class the source
removes right after NFKD normalization. -/
def isCombiningMark (c : Char) : Bool := 0x0300 ≤ c.val && c.val ≤ 0x036F

/-- The replace step removing every combining diacritical mark. -/
def stripCombiningMarks (l : List Char) : List Char :=
  l.filter (fun c => !(isCombiningMark c))

/-- String.prototype.toLowerCase, character-wise; after decomposition and
mark stripping the inputs of this development are ASCII, where the mapping
agrees with the Unicode one. -/
def jsLowerChars (l : List Char) : List Char := l.map Char.toLower

/-- The character class a-z0-9_ kept by the replacement regex of sanitize in
the source. -/
def isWordChar (c : Char) : Bool :=
  ('a' ≤ c && c ≤ 'z') || ('0' ≤ c && c ≤ '9') || c == '_'

/-- The character class a-z0-9, the narrower class named by the
specification sentence for the same replacement step. -/
def isAlnumChar (c : Char) : Bool :=
  ('a' ≤ c && c ≤ 'z') || ('0' ≤ c && c ≤ '9')

/-- Scanning model of the global replacement of every maximal run of
characters outside the kept class with one underscore: the boolean argument
records whether the scanner is inside a run that has already emitted its
underscore. -/
def collapseAux (keep : Char → Bool) : Bool → List Char → List Char
  | _, [] => []
  | inRun, c :: cs =>
    if keep c then c :: collapseAux keep false cs
    else if inRun then collapseAux keep true cs
    else '_' :: collapseAux keep true cs

/-- The replacement step of sanitize, replace of the global pattern of one
or more characters outside the kept class by one underscore. -/
def collapseRuns (keep : Char → Bool) (l : List Char) : List Char :=
  collapseAux keep false l

/-- Declarative form of the same replacement, worded as the specification
words it: the first character of a kept run is kept along with the run, a
maximal run of rejected characters becomes a single underscore and the
scan resumes after it. -/
def collapseRunsSpec (keep : Char → Bool) : List Char → List Char
  | [] => []
  | c :: cs =>
    if keep c then c :: collapseRunsSpec keep cs
    else '_' :: collapseRunsSpec keep (cs.dropWhile (fun d => !keep d))
termination_by l => l.length
decreasing_by
  · simp only [List.length_cons]; omega
  · have h := (List.dropWhile_sublist (l := cs) (fun d => !keep d)).length_le
    simp only [List.length_cons]; omega

/-- The final replace of sanitize removing leading and trailing
underscores. -/
def stripEdgeUnderscores (l : List Char) : List Char :=
  ((l.dropWhile (fun c => c == '_')).reverse.dropWhile (fun c => c == '_')).reverse

/-- The sanitize function shared by the part_001 and part_002 upload
handlers: trim, NFKD normalize, strip the combining marks U+0300 to U+036F,
lower-case, replace every maximal run of characters outside a-z0-9_ with one
underscore, then strip leading and trailing underscores. -/
def sanitize (s : String) : String :=
  String.mk (stripEdgeUnderscores (collapseRuns isWordChar
    (jsLowerChars (stripCombiningMarks (nfkdChars (jsTrimChars s.data))))))

/-- The pipeline exactly as the specification sentence words it, with the
replacement class a-z0-9: every maximal run of characters outside a-z0-9
becomes one underscore, so runs of underscores are collapsed too. -/
def sanitizeSpecClaim (s : String) : String :=
  String.mk (stripEdgeUnderscores (collapseRunsSpec isAlnumChar
    (jsLowerChars (stripCombiningMarks (nfkdChars (jsTrimChars s.data))))))

/-- The specification pipeline amended minimally: the replacement class
keeps the underscore, as the source regex does, so existing underscores
survive verbatim. -/
def sanitizeSpecAmended (s : String) : String :=
  String.mk (stripEdgeUnderscores (collapseRunsSpec isWordChar
    (jsLowerChars (stripCombiningMarks (nfkdChars (jsTrimChars s.data))))))

/-! ## JavaScript objects and the structured CSV parse

A record produced by the parse with option columns set to true is a
JavaScript object: key-value entries in insertion order; assigning to an
existing key replaces its value in place, assigning to a fresh key appends
it. -/

/-- Property assignment on a JavaScript object. -/
def objSet (m : List (String × β)) (k : String) (v : β) : List (String × β) :=
  if m.any (fun p => p.1 == k) then
    m.map (fun p => if p.1 == k then (k, v) else p)
  else m ++ [(k, v)]

/-- Property read on a JavaScript object: the stored value when the key is
present. -/
def objGet (m : List (String × β)) (k : String) : Option β :=
  (m.find? (fun p => p.1 == k)).map (fun p => p.2)

/-- Record construction of the structured parse with columns set to true:
the cells of one data line are assigned to a fresh object under the raw
header names, in column order — so a duplicated header name assigns
repeatedly to the same property and the last occurrence wins. -/
def parseRecordJs (headers : List String) (cells : List β) : List (String × β) :=
  (headers.zip cells).foldl (fun m p => objSet m p.1 p.2) []

/-- The toDb cast of the part_002 handler: the empty string becomes null,
every other value is left intact. -/
def toDb (v : String) : Option String := if v = "" then none else some v

/-- Record construction in the part_002 variant, whose parse applies the
cast toDb to every cell value before the record is assembled. -/
def parseRecord002 (headers : List String) (cells : List String) :
    List (String × Option String) :=
  parseRecordJs headers (cells.map toDb)

/-- Value of the last entry of the list carrying the given key, if any; the
specification-side description of which occurrence of a duplicated header
survives the structured parse. -/
def lastVal (k : String) : List (String × β) → Option β
  | [] => none
  | p :: ps =>
    match lastVal k ps with
    | some v => some v
    | none => if p.1 == k then some p.2 else none

/-! ## Column mapping of the part_001 and part_002 handlers -/

/-- Sanitized header list of the dataset: the keys of the first parsed
record, sanitized. -/
def headerOf (records : List (List (String × Option String))) : List String :=
  (records.headD []).map (fun p => sanitize p.1)

/-- Intersection step of the handlers: the destination columns, kept in
table order, whose name occurs among the sanitized CSV headers. -/
def insertColsOf (tableColumns header : List String) : List String :=
  tableColumns.filter (fun c => header.contains c)

/-- Column-mapping step of the handlers: it throws exactly when the
intersection is empty, with the error message of the part_002 source. -/
def mapColumnsStep (tableColumns header : List String) : Except String (List String) :=
  let ic := insertColsOf tableColumns header
  if ic.isEmpty then
    Except.error "Ninguna columna del CSV coincide con las columnas de public.raw_jira (tras sanitizar nombres)."
  else Except.ok ic

/-- Re-keying of one record under sanitized names, later entries
overwriting earlier ones, as the row loop of the handlers builds sane. -/
def buildSane (row : List (String × Option String)) : List (String × Option String) :=
  row.foldl (fun m p => objSet m (sanitize p.1) p.2) []

/-- Row projection of the handlers: read the mapped columns of sane in
order, an absent property becoming null. -/
def projectRow (ic : List String) (row : List (String × Option String)) :
    List (Option String) :=
  ic.map (fun c =>
    match objGet (buildSane row) c with
    | some v => v
    | none => none)

/-! ## Batched truncate-and-insert load -/

/-- The slicing loop of the batch insert, values.slice of i to i plus the
batch size for i stepping by the batch size; the source only instantiates
the batch size with 1000. -/
def chunksOf (bs : Nat) (l : List α) : List (List α) :=
  match l with
  | [] => []
  | x :: xs =>
    if _hb : bs = 0 then []
    else (x :: xs).take bs :: chunksOf bs ((x :: xs).drop bs)
termination_by l.length
decreasing_by
  have h2 := List.length_drop bs (x :: xs)
  simp only [List.length_cons] at h2 ⊢
  omega

/-- Number of bound parameters of one generated INSERT statement: the
placeholder grid numbers one parameter per row and mapped column. -/
def bindParamCount (cols : Nat) (chunk : List α) : Nat := chunk.length * cols

/-- Statements the loaders issue against the destination table. -/
inductive SqlStmt (ρ : Type) where
  | createTable
  | truncate
  | insertRows (rows : List ρ)
deriving DecidableEq

/-- Effect of one successful statement on the visible table contents:
CREATE TABLE IF NOT EXISTS leaves an existing table alone, TRUNCATE empties
it, INSERT appends the bound rows. -/
def applyStmt (db : List ρ) : SqlStmt ρ → List ρ
  | SqlStmt.createTable => db
  | SqlStmt.truncate => []
  | SqlStmt.insertRows rs => db ++ rs

/-- Statement sequence of the first api/upload.js variant: CREATE TABLE IF
NOT EXISTS, TRUNCATE, then one INSERT per 1000-row chunk — the source of
this variant issues no BEGIN. -/
def loadStmtsA (rows : List ρ) : List (SqlStmt ρ) :=
  SqlStmt.createTable :: SqlStmt.truncate ::
    (chunksOf 1000 rows).map SqlStmt.insertRows

/-- Sequential execution without a transaction: every successful statement
takes effect immediately (autocommit); the first failing statement stops
the load and leaves all earlier effects in place. The oracle says which
statements the store accepts. -/
def runAutocommit (ok : SqlStmt ρ → Bool) : List ρ → List (SqlStmt ρ) → List ρ × Bool
  | db, [] => (db, true)
  | db, s :: ss => if ok s then runAutocommit ok (applyStmt db s) ss else (db, false)

/-- Load of the first api/upload.js variant, which runs its TRUNCATE and
chunked INSERTs with no surrounding transaction. -/
def uploadLoadA (ok : SqlStmt ρ → Bool) (rows : List ρ) (db : List ρ) :
    List ρ × Bool :=
  runAutocommit ok db (loadStmtsA rows)

/-- Statement sequence inside the part_002 transaction: TRUNCATE then one
INSERT per 1000-row chunk. -/
def loadStmtsB (values : List ρ) : List (SqlStmt ρ) :=
  SqlStmt.truncate :: (chunksOf 1000 values).map SqlStmt.insertRows

/-- Execution of the transaction body on the transaction-local state: the
whole body fails on the first failing statement. -/
def runTxBody (ok : SqlStmt ρ → Bool) : List ρ → List (SqlStmt ρ) → Option (List ρ)
  | tx, [] => some tx
  | tx, s :: ss => if ok s then runTxBody ok (applyStmt tx s) ss else none

/-- Total row count the batch loop accumulates, one chunk length per
executed INSERT. -/
def txTotal (values : List ρ) : Nat := ((chunksOf 1000 values).map List.length).sum

/-- Load of the part_002 variant: BEGIN, truncate plus batched inserts,
COMMIT; on any error the catch block issues ROLLBACK, so the pre-call table
stays visible, and the error is re-thrown. -/
def uploadLoadB (ok : SqlStmt ρ → Bool) (values : List ρ) (db : List ρ) :
    List ρ × Except String Nat :=
  match runTxBody ok db (loadStmtsB values) with
  | some tx => (tx, Except.ok (txTotal values))
  | none => (db, Except.error "batch insert failed")

/-! ## The part_002 handler pipeline and its response surface -/

/-- Wire result of the part_002 handler: on success ok true together with
the inserted row count, otherwise ok false with an error message — the
source sends no other field. -/
inductive ApiResponse where
  | ok (rows : Nat)
  | err (msg : String)
deriving DecidableEq

/-- The part_002 handler after CSV decoding: empty-dataset check, schema
read (the table columns are passed in), intersection mapping, row
projection, transactional load. The success response carries only the ok
flag and the inserted row count. -/
def uploadResponse002 (ok : SqlStmt (List (Option String)) → Bool)
    (db : List (List (Option String)))
    (records : List (List (String × Option String)))
    (tableColumns : List String) : ApiResponse :=
  if records.isEmpty then ApiResponse.err "CSV vacío"
  else if tableColumns.isEmpty then
    ApiResponse.err "La tabla public.raw_jira no existe o no tiene columnas."
  else
    match mapColumnsStep tableColumns (headerOf records) with
    | Except.error e => ApiResponse.err e
    | Except.ok ic =>
      match (uploadLoadB ok (records.map (projectRow ic)) db).2 with
      | Except.ok n => ApiResponse.ok n
      | Except.error e => ApiResponse.err e

/-! ## The first api/upload.js variant: fixed header table and pick -/

/-- The pick helper of the first api/upload.js variant: scan the record
keys, compare them trimmed and lower-cased against the wanted header, and
return the stored cell of the first match; null when no key matches. The
cell itself is returned verbatim. -/
def pick (row : List (String × String)) (name : String) : Option String :=
  match row.find? (fun p =>
    !(p.1 == "") &&
      (String.mk (jsLowerChars (jsTrimChars p.1.data)) ==
        String.mk (jsLowerChars (jsTrimChars name.data)))) with
  | some p => some p.2
  | none => none

/-- Row assembly of the first api/upload.js variant: one pick per fixed CSV
header of CSV_TO_COL, in insert order. -/
def assembleRowA (r : List (String × String)) : List (Option String) :=
  [pick r "Tipo de Incidencia", pick r "Clave principal",
   pick r "ID de la incidencia", pick r "Resumen", pick r "Principal",
   pick r "Clave de incidencia", pick r "Parent summary", pick r "Etiquetas",
   pick r "Sprint", pick r "Estado"]

/-! ## KPI rebuild of api/_kpi.js -/

/-- Lexicographic comparison of character lists by code point, the default
comparator of Array.prototype.sort on file names. -/
def lexLeChars : List Char → List Char → Bool
  | [], _ => true
  | _ :: _, [] => false
  | c :: cs, d :: ds => if c = d then lexLeChars cs ds else decide (c < d)

/-- Lexicographic order on file names. -/
def fileLe (a b : String) : Prop := lexLeChars a.data b.data = true

instance : DecidableRel fileLe := fun a b => by
  unfold fileLe; infer_instance

/-- Model of files.sort with the default comparator: the lexicographically
sorted rearrangement of the directory listing. -/
def sortFiles (files : List String) : List String := List.insertionSort fileLe files

/-- The endsWith check selecting the artifacts to execute. -/
def endsWithSql (f : String) : Bool := List.isSuffixOf ".sql".data f.data

/-- Loop of rebuildAllKpis over the sorted listing: a name not ending in
.sql is skipped without being executed; each remaining artifact is handed
to the store, and pushed onto executed only after the store accepted it; a
failing artifact throws, so the executed list is lost to the caller. The
first component is the trace of artifacts whose SQL was handed to the
store, the second what the function reports: the executed names on an
all-success run, otherwise the thrown error (modelled by the failing
name). -/
def runKpiFiles (exec : String → Bool) : List String → List String × Except String (List String)
  | [] => ([], Except.ok [])
  | f :: fs =>
    if endsWithSql f then
      if exec f then
        match runKpiFiles exec fs with
        | (att, Except.ok ex) => (f :: att, Except.ok (f :: ex))
        | (att, Except.error e) => (f :: att, Except.error e)
      else ([f], Except.error f)
    else runKpiFiles exec fs

/-- rebuildAllKpis of api/_kpi.js: a failed readdir of the artifact
directory is caught and replaced by the empty listing, then the files are
processed in sorted order. -/
def rebuildAllKpis (listing : Option (List String)) (exec : String → Bool) :
    List String × Except String (List String) :=
  runKpiFiles exec (sortFiles (listing.getD []))

/-! ## Store-visible event order of the part_001 handler -/

/-- Events the part_001 upload handler issues against the store, in program
order. -/
inductive LoadEvent where
  | schemaQuery
  | beginTx
  | truncate
  | insertBatch (i : Nat)
  | kpiHook
  | commitTx
deriving DecidableEq

/-- SQL statements executed by runKpiSql of part_001: the whole body of the
function is commented out, so it executes none. -/
def runKpiSqlStmts : List String := []

/-- Event order of the part_001 handler for a load of n batches: schema
read, BEGIN, TRUNCATE, the batch INSERTs, the runKpiSql invocation, then
COMMIT — the KPI hook is invoked inside the transaction, before COMMIT. -/
def loadTrace001 (n : Nat) : List LoadEvent :=
  [LoadEvent.schemaQuery, LoadEvent.beginTx, LoadEvent.truncate] ++
    (List.range n).map LoadEvent.insertBatch ++
    [LoadEvent.kpiHook, LoadEvent.commitTx]



theorem collapseAux_true_eq (keep : Char → Bool) : ∀ cs : List Char,
    collapseAux keep true cs = collapseAux keep false (cs.dropWhile (fun d => !keep d))
  | [] => rfl
  | d :: ds => by
    by_cases hd : keep d
    · simp [collapseAux, hd, List.dropWhile_cons]
    · simp [collapseAux, hd, List.dropWhile_cons, collapseAux_true_eq keep ds]

theorem collapseRuns_eq_spec (keep : Char → Bool) (l : List Char) :
    collapseRuns keep l = collapseRunsSpec keep l := by
  have key : ∀ n : Nat, ∀ l : List Char, l.length = n →
      collapseRuns keep l = collapseRunsSpec keep l := by
    intro n
    induction n using Nat.strong_induction_on with
    | _ n ih =>
      intro l hn
      match l, hn with
      | [], _ => simp [collapseRuns, collapseAux, collapseRunsSpec]
      | c :: cs, hn =>
        rw [collapseRunsSpec]
        by_cases hc : keep c
        · simp only [collapseRuns, collapseAux, hc, if_true]
          have h1 := ih cs.length (by simp only [← hn, List.length_cons]; omega) cs rfl
          simp only [collapseRuns] at h1
          rw [h1]
        · simp only [collapseRuns, collapseAux, hc, if_false]
          rw [collapseAux_true_eq]
          have hlen : (cs.dropWhile (fun d => !keep d)).length < n := by
            have h2 := (List.dropWhile_sublist (l := cs) (fun d => !keep d)).length_le
            simp only [← hn, List.length_cons]; omega
          have h3 := ih _ hlen (cs.dropWhile (fun d => !keep d)) rfl
          simp only [collapseRuns] at h3
          rw [h3]
          simp
  exact key l.length l rfl


theorem objGet_cons (p : String × β) (m : List (String × β)) (k : String) :
    objGet (p :: m) k = if p.1 = k then some p.2 else objGet m k := by
  by_cases h : p.1 = k <;> simp [objGet, List.find?_cons, h]

theorem objGet_map_set (m : List (String × β)) (k k2 : String) (v : β) :
    objGet (m.map (fun p => if p.1 == k then (k, v) else p)) k2 =
      if k2 = k then (if m.any (fun p => p.1 == k) then some v else none)
      else objGet m k2 := by
  induction m with
  | nil => by_cases h : k2 = k <;> simp [objGet, h]
  | cons p ps ih =>
    by_cases hp : p.1 = k
    · by_cases h2 : k2 = k
      · subst h2
        simp [List.map_cons, hp, objGet_cons, List.any_cons]
      · simp [List.map_cons, hp, objGet_cons, h2, Ne.symm h2]
        simpa [h2] using ih
    · by_cases h2 : k2 = k
      · subst h2
        have hpk : p.1 ≠ k2 := hp
        have hb : (p.1 == k2) = false := by simp [hpk]
        simp only [List.map_cons, List.any_cons, hb, Bool.false_or]
        rw [objGet_cons]
        simp only [hb, Bool.false_eq_true, if_false, hpk, ite_false]
        simpa using ih
      · by_cases hp2 : p.1 = k2
        · simp [List.map_cons, hp, objGet_cons, hp2, h2]
        · simp [List.map_cons, hp, objGet_cons, hp2, h2]
          simpa [h2] using ih

theorem objGet_append (m n : List (String × β)) (k : String) :
    objGet (m ++ n) k = (objGet m k).or (objGet n k) := by
  rw [objGet, List.find?_append]
  cases h : m.find? (fun p => p.1 == k) <;> simp [objGet, h]

theorem objGet_objSet (m : List (String × β)) (k k2 : String) (v : β) :
    objGet (objSet m k v) k2 = if k2 = k then some v else objGet m k2 := by
  by_cases hany : m.any (fun p => p.1 == k) = true
  · simp only [objSet, hany, if_true]
    rw [objGet_map_set]
    by_cases h2 : k2 = k <;> simp [h2, hany]
  · have hset : objSet m k v = m ++ [(k, v)] := by simp [objSet, hany]
    rw [hset, objGet_append]
    by_cases h2 : k2 = k
    · subst h2
      have hnone : objGet m k2 = none := by
        rw [objGet]
        have h3 : (m.any fun p => p.1 == k2) = false := by
          cases h4 : (m.any fun p => p.1 == k2)
          · rfl
          · exact absurd h4 hany
        rw [List.find?_eq_none.mpr (List.any_eq_false.mp h3)]
        rfl
      simp [hnone, objGet_cons]
    · simp [objGet, objGet_cons, h2, Ne.symm h2, List.find?_cons]


theorem objGet_foldl_objSet (k : String) (ps : List (String × β)) (m : List (String × β)) :
    objGet (ps.foldl (fun m p => objSet m p.1 p.2) m) k =
      match lastVal k ps with
      | some v => some v
      | none => objGet m k := by
  induction ps generalizing m with
  | nil => simp [lastVal]
  | cons p ps ih =>
    rw [List.foldl_cons, ih]
    rw [lastVal]
    cases h : lastVal k ps with
    | some v => simp
    | none =>
      simp only []
      rw [objGet_objSet]
      by_cases h2 : p.1 = k
      · simp [h2]
      · simp [h2, Ne.symm h2]

theorem objGet_parseRecordJs (headers : List String) (cells : List β) (k : String) :
    objGet (parseRecordJs headers cells) k = lastVal k (headers.zip cells) := by
  rw [parseRecordJs, objGet_foldl_objSet]
  cases h : lastVal k (headers.zip cells) <;> simp [objGet]

theorem lastVal_mem (k : String) (ps : List (String × β)) (v : β)
    (h : lastVal k ps = some v) : ∃ p ∈ ps, p.2 = v := by
  induction ps with
  | nil => simp [lastVal] at h
  | cons p ps ih =>
    rw [lastVal] at h
    cases h2 : lastVal k ps with
    | some w =>
      rw [h2] at h
      obtain ⟨q, hq, hv⟩ := ih (by rw [h2]; exact congrArg some (Option.some.inj h))
      exact ⟨q, List.mem_cons_of_mem _ hq, hv⟩
    | none =>
      rw [h2] at h
      by_cases h3 : p.1 = k
      · refine ⟨p, List.mem_cons_self _ _, ?_⟩
        have : (p.1 == k) = true := by simp [h3]
        rw [this] at h
        simpa using h
      · have : (p.1 == k) = false := by simp [h3]
        rw [this] at h
        simp at h


theorem chunksOf_cons_eq (b : Nat) (l : List α) (h : l ≠ []) :
    chunksOf (b + 1) l = l.take (b + 1) :: chunksOf (b + 1) (l.drop (b + 1)) := by
  match l with
  | [] => exact absurd rfl h
  | x :: xs => rw [chunksOf]; simp

theorem chunksOf_mem_length_le (b : Nat) (l ch : List α)
    (hmem : ch ∈ chunksOf (b + 1) l) : ch.length ≤ b + 1 := by
  have key : ∀ n : Nat, ∀ l ch : List α, l.length = n →
      ch ∈ chunksOf (b + 1) l → ch.length ≤ b + 1 := by
    intro n
    induction n using Nat.strong_induction_on with
    | _ n ih =>
      intro l ch hn hm
      match l with
      | [] => simp [chunksOf] at hm
      | x :: xs =>
        rw [chunksOf_cons_eq b (x :: xs) (by simp)] at hm
        rcases List.mem_cons.mp hm with h1 | h1
        · subst h1
          have := List.length_take (b + 1) (x :: xs)
          omega
        · have hlt : ((x :: xs).drop (b + 1)).length < n := by
            have hd := List.length_drop (b + 1) (x :: xs)
            simp only [List.length_cons] at hd hn ⊢
            omega
          exact ih _ hlt _ _ rfl h1
  exact key l.length l ch rfl hmem

theorem chunksOf_flatten (b : Nat) (l : List α) : (chunksOf (b + 1) l).flatten = l := by
  have key : ∀ n : Nat, ∀ l : List α, l.length = n → (chunksOf (b + 1) l).flatten = l := by
    intro n
    induction n using Nat.strong_induction_on with
    | _ n ih =>
      intro l hn
      match l with
      | [] => simp [chunksOf]
      | x :: xs =>
        rw [chunksOf_cons_eq b (x :: xs) (by simp)]
        rw [List.flatten_cons]
        have hlt : ((x :: xs).drop (b + 1)).length < n := by
          have hd := List.length_drop (b + 1) (x :: xs)
          simp only [List.length_cons] at hd hn ⊢
          omega
        rw [ih _ hlt _ rfl, List.take_append_drop]
  exact key l.length l rfl

theorem txTotal_eq_length (values : List ρ) : txTotal values = values.length := by
  have h : (1000 : Nat) = 999 + 1 := by norm_num
  rw [txTotal, h, ← List.length_flatten, chunksOf_flatten]

theorem uploadLoadB_error_rollback (ok : SqlStmt ρ → Bool) (values db : List ρ) (e : String)
    (h : (uploadLoadB ok values db).2 = Except.error e) :
    (uploadLoadB ok values db).1 = db := by
  cases h2 : runTxBody ok db (loadStmtsB values) with
  | some tx => rw [uploadLoadB, h2] at h; simp at h
  | none => rw [uploadLoadB, h2]

theorem runTxBody_some_eq_foldl (ok : SqlStmt ρ → Bool) :
    ∀ (stmts : List (SqlStmt ρ)) (db tx : List ρ),
      runTxBody ok db stmts = some tx → tx = stmts.foldl applyStmt db := by
  intro stmts
  induction stmts with
  | nil => intro db tx h; simp [runTxBody] at h; simp [h.symm]
  | cons s ss ih =>
    intro db tx h
    rw [runTxBody] at h
    by_cases hs : ok s = true
    · rw [if_pos hs] at h
      rw [List.foldl_cons]
      exact ih _ _ h
    · rw [if_neg hs] at h
      simp at h

theorem foldl_applyStmt_inserts (L : List (List ρ)) (acc : List ρ) :
    (L.map SqlStmt.insertRows).foldl applyStmt acc = acc ++ L.flatten := by
  induction L generalizing acc with
  | nil => simp [applyStmt]
  | cons r rs ih => simp [applyStmt, ih, List.append_assoc]

theorem uploadLoadB_commit (ok : SqlStmt ρ → Bool) (values db : List ρ) (n : Nat)
    (h : (uploadLoadB ok values db).2 = Except.ok n) :
    (uploadLoadB ok values db).1 = values ∧ n = values.length := by
  cases h2 : runTxBody ok db (loadStmtsB values) with
  | none => rw [uploadLoadB, h2] at h; simp at h
  | some tx =>
    rw [uploadLoadB, h2] at h ⊢
    have h7 : txTotal values = n := by simpa using h
    have h3 := runTxBody_some_eq_foldl ok (loadStmtsB values) db tx h2
    have h4 : tx = values := by
      rw [h3, loadStmtsB, List.foldl_cons]
      have h5 : applyStmt db (SqlStmt.truncate : SqlStmt ρ) = [] := rfl
      rw [h5, foldl_applyStmt_inserts]
      have h6 : (1000 : Nat) = 999 + 1 := by norm_num
      rw [List.nil_append, h6, chunksOf_flatten]
    refine ⟨by simpa using h4, ?_⟩
    rw [← h7, txTotal_eq_length]


theorem lexLeChars_total : ∀ a b : List Char, lexLeChars a b = true ∨ lexLeChars b a = true
  | [], _ => Or.inl rfl
  | _ :: _, [] => Or.inr rfl
  | c :: cs, d :: ds => by
    by_cases h : c = d
    · subst h
      rcases lexLeChars_total cs ds with h1 | h1
      · exact Or.inl (by simp [lexLeChars, h1])
      · exact Or.inr (by simp [lexLeChars, h1])
    · rcases lt_trichotomy c d with hlt | heq | hgt
      · exact Or.inl (by simp [lexLeChars, h, hlt])
      · exact absurd heq h
      · exact Or.inr (by simp [lexLeChars, Ne.symm h, hgt])

theorem lexLeChars_trans : ∀ a b c : List Char,
    lexLeChars a b = true → lexLeChars b c = true → lexLeChars a c = true
  | [], _, _, _, _ => rfl
  | x :: xs, [], _, h1, _ => by simp [lexLeChars] at h1
  | x :: xs, y :: ys, [], _, h2 => by simp [lexLeChars] at h2
  | x :: xs, y :: ys, z :: zs, h1, h2 => by
    by_cases hxy : x = y
    · subst hxy
      by_cases hyz : x = z
      · subst hyz
        simp only [lexLeChars, if_pos rfl] at h1 h2 ⊢
        exact lexLeChars_trans xs ys zs h1 h2
      · simp only [lexLeChars, if_pos rfl, if_neg hyz] at h2 ⊢
        exact h2
    · simp only [lexLeChars, if_neg hxy] at h1
      have hx : x < y := of_decide_eq_true h1
      by_cases hyz : y = z
      · subst hyz
        simp only [lexLeChars, if_neg hxy]
        exact decide_eq_true hx
      · simp only [lexLeChars, if_neg hyz] at h2
        have hy : y < z := of_decide_eq_true h2
        have hxz : x < z := lt_trans hx hy
        simp only [lexLeChars, if_neg (ne_of_lt hxz)]
        exact decide_eq_true hxz

theorem lexLeChars_antisymm : ∀ a b : List Char,
    lexLeChars a b = true → lexLeChars b a = true → a = b
  | [], [], _, _ => rfl
  | [], _ :: _, _, h2 => by simp [lexLeChars] at h2
  | _ :: _, [], h1, _ => by simp [lexLeChars] at h1
  | c :: cs, d :: ds, h1, h2 => by
    by_cases h : c = d
    · subst h
      simp only [lexLeChars, if_pos rfl] at h1 h2
      rw [lexLeChars_antisymm cs ds h1 h2]
    · simp only [lexLeChars, if_neg h, if_neg (Ne.symm h)] at h1 h2
      have hx : c < d := of_decide_eq_true h1
      have hy : d < c := of_decide_eq_true h2
      exact absurd hx (not_lt_of_gt hy)

instance : IsTotal String fileLe :=
  ⟨fun a b => lexLeChars_total a.data b.data⟩

instance : IsTrans String fileLe :=
  ⟨fun a b c => lexLeChars_trans a.data b.data c.data⟩

instance : IsAntisymm String fileLe :=
  ⟨fun a b h1 h2 => by
    have h3 := lexLeChars_antisymm a.data b.data h1 h2
    cases a; cases b; exact congrArg String.mk h3⟩

theorem sortFiles_perm_eq (l₁ l₂ : List String) (h : l₁.Perm l₂) :
    sortFiles l₁ = sortFiles l₂ := by
  apply List.eq_of_perm_of_sorted (r := fileLe)
  · exact (List.perm_insertionSort _ _).trans (h.trans (List.perm_insertionSort _ _).symm)
  · exact List.sorted_insertionSort _ _
  · exact List.sorted_insertionSort _ _


theorem runKpiFiles_attempted_sql (exec : String → Bool) :
    ∀ (fs : List String) (f : String), f ∈ (runKpiFiles exec fs).1 → endsWithSql f = true := by
  intro fs
  induction fs with
  | nil => intro f hf; simp [runKpiFiles] at hf
  | cons g gs ih =>
    intro f hf
    by_cases hg : endsWithSql g = true
    · by_cases he : exec g = true
      · rw [runKpiFiles, if_pos hg, if_pos he] at hf
        cases h2 : runKpiFiles exec gs with
        | mk att r =>
          rw [h2] at hf
          cases r with
          | ok ex =>
            simp only [] at hf
            rcases List.mem_cons.mp hf with h3 | h3
            · rw [h3]; exact hg
            · exact ih f (by rw [h2]; exact h3)
          | error e =>
            simp only [] at hf
            rcases List.mem_cons.mp hf with h3 | h3
            · rw [h3]; exact hg
            · exact ih f (by rw [h2]; exact h3)
      · rw [runKpiFiles, if_pos hg, if_neg he] at hf
        simp only [List.mem_singleton] at hf
        rw [hf]; exact hg
    · rw [runKpiFiles, if_neg hg] at hf
      exact ih f hf

theorem getLast?_cons_of_some (x : α) (l : List α) (e : α)
    (h : l.getLast? = some e) : (x :: l).getLast? = some e := by
  cases l with
  | nil => simp at h
  | cons y ys => rw [List.getLast?_cons_cons]; exact h

theorem runKpiFiles_error_stops (exec : String → Bool) :
    ∀ (fs : List String) (e : String), (runKpiFiles exec fs).2 = Except.error e →
      exec e = false ∧ (runKpiFiles exec fs).1.getLast? = some e := by
  intro fs
  induction fs with
  | nil => intro e he; simp [runKpiFiles] at he
  | cons g gs ih =>
    intro e he
    by_cases hg : endsWithSql g = true
    · by_cases hx : exec g = true
      · rw [runKpiFiles, if_pos hg, if_pos hx] at he ⊢
        cases h2 : runKpiFiles exec gs with
        | mk att r =>
          rw [h2] at he
          cases r with
          | ok ex => simp at he
          | error e2 =>
            have he2 : e2 = e := by simpa using he
            subst he2
            obtain ⟨ha, hb⟩ := ih e2 (by rw [h2])
            refine ⟨ha, ?_⟩
            rw [h2] at hb
            exact getLast?_cons_of_some g att e2 hb
      · rw [runKpiFiles, if_pos hg, if_neg hx] at he ⊢
        have hge : g = e := by simpa using he
        subst hge
        constructor
        · cases h3 : exec g
          · rfl
          · exact absurd h3 hx
        · simp
    · rw [runKpiFiles, if_neg hg] at he ⊢
      exact ih e he

theorem indexOf_append_not_mem (a : LoadEvent) (l₁ l₂ : List LoadEvent) (h : a ∉ l₁) :
    (l₁ ++ l₂).indexOf a = l₁.length + l₂.indexOf a := by
  induction l₁ with
  | nil => simp
  | cons x xs ih =>
    have hx : (x == a) = false := by
      simp only [beq_eq_false_iff_ne]
      intro he
      exact h (he ▸ List.mem_cons_self x xs)
    rw [List.cons_append, List.indexOf_cons, hx]
    have h2 := ih (fun hm => h (List.mem_cons_of_mem _ hm))
    simp only [cond_false, h2, List.length_cons]
    omega

theorem loadTrace001_positions (n : Nat) :
    (loadTrace001 n).indexOf LoadEvent.kpiHook = n + 3 ∧
    (loadTrace001 n).indexOf LoadEvent.commitTx = n + 4 := by
  have hnm1 : LoadEvent.kpiHook ∉
      ([LoadEvent.schemaQuery, LoadEvent.beginTx, LoadEvent.truncate] ++
        (List.range n).map LoadEvent.insertBatch) := by
    simp [List.mem_append, List.mem_map]
  have hnm2 : LoadEvent.commitTx ∉
      ([LoadEvent.schemaQuery, LoadEvent.beginTx, LoadEvent.truncate] ++
        (List.range n).map LoadEvent.insertBatch) := by
    simp [List.mem_append, List.mem_map]
  have hlen : ([LoadEvent.schemaQuery, LoadEvent.beginTx, LoadEvent.truncate] ++
      (List.range n).map LoadEvent.insertBatch).length = n + 3 := by
    simp [List.length_append, List.length_map, List.length_range]
  constructor
  · rw [loadTrace001, indexOf_append_not_mem _ _ _ hnm1, hlen]
    simp [List.indexOf_cons]
  · rw [loadTrace001, indexOf_append_not_mem _ _ _ hnm2, hlen]
    simp [List.indexOf_cons]


theorem chunksOf_replicate (b : Nat) (a : α) :
    ∀ k : Nat, chunksOf (b + 1) (List.replicate ((b + 1) * k) a) =
      List.replicate k (List.replicate (b + 1) a) := by
  intro k
  induction k with
  | zero => simp [chunksOf]
  | succ k ih =>
    have h1 : (b + 1) * (k + 1) = (b + (b + 1) * k) + 1 := by ring
    rw [h1, List.replicate_succ]
    rw [chunksOf_cons_eq b _ (by simp)]
    have h2 : a :: List.replicate (b + (b + 1) * k) a =
        List.replicate ((b + (b + 1) * k) + 1) a := (List.replicate_succ a _).symm
    rw [h2, List.take_replicate, List.drop_replicate]
    have h3 : (b + 1) ⊓ (b + (b + 1) * k + 1) = b + 1 := by omega
    have h4 : (b + (b + 1) * k + 1) - (b + 1) = (b + 1) * k := by omega
    rw [h3, h4, ih]
    exact (List.replicate_succ _ _).symm

theorem headerOf_map_append (records : List (List (String × Option String)))
    (p : String × Option String) (h : records ≠ []) :
    headerOf (records.map (fun r => r ++ [p])) = headerOf records ++ [sanitize p.1] := by
  match records with
  | r0 :: rest => simp [headerOf, List.map_append]

theorem contains_append_singleton (l : List String) (c x : String) (h : c ≠ x) :
    (l ++ [x]).contains c = l.contains c := by
  cases h1 : l.contains c
  · have hm : c ∉ l := by
      intro hm
      have : l.contains c = true := by simp [List.contains, hm]
      rw [h1] at this
      exact Bool.noConfusion this
    have : c ∉ l ++ [x] := by
      intro hm2
      rcases List.mem_append.mp hm2 with h3 | h3
      · exact hm h3
      · exact h (by simpa using h3)
    simp [List.contains, this]
  · have hm : c ∈ l := by
      have := h1
      simp [List.contains] at this
      exact this
    simp [List.contains, List.mem_append.mpr (Or.inl hm)]

theorem insertColsOf_append_unmapped (tableColumns header : List String) (x : String)
    (hx : x ∉ tableColumns) :
    insertColsOf tableColumns (header ++ [x]) = insertColsOf tableColumns header := by
  rw [insertColsOf, insertColsOf]
  apply List.filter_congr
  intro c hc
  exact contains_append_singleton header c x (fun he => hx (he ▸ hc))

theorem buildSane_append (row : List (String × Option String)) (p : String × Option String) :
    buildSane (row ++ [p]) = objSet (buildSane row) (sanitize p.1) p.2 := by
  rw [buildSane, buildSane, List.foldl_append]
  rfl

theorem projectRow_append_unmapped (ic : List String) (row : List (String × Option String))
    (p : String × Option String) (hx : sanitize p.1 ∉ ic) :
    projectRow ic (row ++ [p]) = projectRow ic row := by
  rw [projectRow, projectRow]
  apply List.map_congr_left
  intro c hc
  rw [buildSane_append, objGet_objSet]
  have hcn : c ≠ sanitize p.1 := by
    intro he
    rw [he] at hc
    exact hx hc
  rw [if_neg hcn]

theorem runTxBody_allOk (dbx : List ρ) (stmts : List (SqlStmt ρ)) :
    runTxBody (fun _ => true) dbx stmts = some (stmts.foldl applyStmt dbx) := by
  induction stmts generalizing dbx with
  | nil => rfl
  | cons s ss ih => rw [runTxBody, if_pos rfl, List.foldl_cons, ih]

theorem uploadResponse002_success (records : List (List (String × Option String)))
    (tableColumns : List String) (db : List (List (Option String)))
    (h1 : records ≠ []) (h2 : tableColumns ≠ [])
    (h3 : insertColsOf tableColumns (headerOf records) ≠ []) :
    uploadResponse002 (fun _ => true) db records tableColumns =
      ApiResponse.ok records.length := by
  rw [uploadResponse002]
  rw [if_neg (by simpa [List.isEmpty_iff] using h1)]
  rw [if_neg (by simpa [List.isEmpty_iff] using h2)]
  have hms : mapColumnsStep tableColumns (headerOf records) =
      Except.ok (insertColsOf tableColumns (headerOf records)) := by
    rw [mapColumnsStep]
    exact if_neg (by simpa [List.isEmpty_iff] using h3)
  rw [hms]
  simp only [uploadLoadB, runTxBody_allOk, txTotal_eq_length, List.length_map]


theorem chunksOf_of_short (b : Nat) (l : List α) (h1 : l ≠ []) (h2 : l.length ≤ b + 1) :
    chunksOf (b + 1) l = [l] := by
  rw [chunksOf_cons_eq b l h1, List.take_of_length_le h2, List.drop_eq_nil_of_le h2]
  simp [chunksOf]

theorem mapColumnsStep_ok_eq (t hd : List String) (ic : List String)
    (hm : mapColumnsStep t hd = Except.ok ic) : ic = insertColsOf t hd := by
  by_cases he : (insertColsOf t hd).isEmpty = true
  · rw [mapColumnsStep] at hm
    rw [if_pos he] at hm
    exact Except.noConfusion hm
  · rw [mapColumnsStep] at hm
    rw [if_neg he] at hm
    exact (Except.ok.inj hm).symm

theorem insertColsOf_eq_nil_iff (t hd : List String) :
    insertColsOf t hd = [] ↔ ∀ c ∈ t, c ∉ hd := by
  rw [insertColsOf, List.filter_eq_nil_iff]
  constructor
  · intro h c hc hm
    exact h c hc (by simp [List.contains, hm])
  · intro h c hc hm
    have := h c hc
    simp [List.contains] at hm
    exact this hm


theorem chunksOf1000_single (l : List α) (h1 : l ≠ []) (h2 : l.length ≤ 1000) :
    chunksOf 1000 l = [l] := by
  have h : (1000 : Nat) = 999 + 1 := by norm_num
  rw [h]
  exact chunksOf_of_short 999 l h1 (by omega)

/-- C1 counterexample: in the first api/upload.js variant (no BEGIN, so every
statement autocommits), a load over a table holding one row, with a
constraint violation on the batch INSERT, leaves the table empty — the
already-committed TRUNCATE stays visible — instead of restoring the one
pre-existing row as the claim demands. -/
theorem c1_counterexample :
    (uploadLoadA (fun s => s != SqlStmt.insertRows [0, 1, 2]) [0, 1, 2] [7]).1 = [] ∧
    (uploadLoadA (fun s => s != SqlStmt.insertRows [0, 1, 2]) [0, 1, 2] [7]).2 = false ∧
    ([] : List Nat) ≠ [7] := by
  have hc : chunksOf 1000 [0, 1, 2] = [[0, 1, 2]] := chunksOf1000_single _ (by decide) (by decide)
  refine ⟨?_, ?_, by decide⟩
  · rw [uploadLoadA, loadStmtsA, hc]
    decide
  · rw [uploadLoadA, loadStmtsA, hc]
    decide

/-- C1 (amended): in the part_002 variant, whose truncate and batched
inserts run inside BEGIN followed by COMMIT with ROLLBACK in the catch
block, a failure anywhere in the batch sequence leaves the destination
table exactly as it was before the call. -/
theorem c1_theorem (ok : SqlStmt ρ → Bool) (values db : List ρ) (e : String)
    (h : (uploadLoadB ok values db).2 = Except.error e) :
    (uploadLoadB ok values db).1 = db :=
  uploadLoadB_error_rollback ok values db e h

/-- C1 witness: a concrete failing run of the part_002 loader leaves the
pre-call table visible. -/
theorem c1_theorem_witness :
    (uploadLoadB (fun _ => false) [[some "x"]] [[some "y"]]).1 = [[some "y"]] :=
  c1_theorem (fun _ => false) [[some "x"]] [[some "y"]] "batch insert failed" (by rfl)

/-- C2 counterexample: a raw header row repeating Sprint three times is
collapsed by the structured parse into a single record property holding
only the last value; against the destination schema sprint, sprint1,
sprint2 only the base column is mapped and only the last value reaches the
row-value stage — the first two occurrences are lost. -/
theorem c2_counterexample :
    parseRecordJs ["Sprint", "Sprint", "Sprint"] [some "a", some "b", some "c"] =
      [("Sprint", some "c")] ∧
    headerOf [parseRecordJs ["Sprint", "Sprint", "Sprint"] [some "a", some "b", some "c"]] =
      ["sprint"] ∧
    insertColsOf ["sprint", "sprint1", "sprint2"] ["sprint"] = ["sprint"] ∧
    projectRow ["sprint"]
      (parseRecordJs ["Sprint", "Sprint", "Sprint"] [some "a", some "b", some "c"]) =
      [some "c"] := by
  decide

/-- C2 (amended): the structured parse keys each record by the raw header
text, so for every key the surviving value is the one of the last
occurrence of that header — earlier duplicate occurrences are overwritten,
not preserved under distinct keys. -/
theorem c2_theorem (headers : List String) (cells : List β) (k : String) :
    objGet (parseRecordJs headers cells) k = lastVal k (headers.zip cells) :=
  objGet_parseRecordJs headers cells k

/-- C3 counterexample: with 66 mapped columns and 1000 rows the single
generated statement binds 66000 parameters, above the 65535 ceiling of the
store wire protocol — the fixed 1000-row batch size ignores the column
count. -/
theorem c3_counterexample :
    ∃ ch ∈ chunksOf 1000 (List.replicate 1000 (0 : Nat)),
      ¬ bindParamCount 66 ch ≤ 65535 := by
  have h6 : (1000 : Nat) = 999 + 1 := by norm_num
  have hr := chunksOf_replicate 999 (0 : Nat) 1
  norm_num at hr
  refine ⟨List.replicate 1000 0, ?_, ?_⟩
  · rw [h6, hr]
    exact List.mem_singleton.mpr rfl
  · rw [bindParamCount, List.length_replicate]
    norm_num

/-- C3 (amended): batches are a fixed 1000 rows regardless of the column
count, and the bound-parameter count of every generated statement stays
under 65535 exactly when at most 65 columns are mapped — which covers the
60-column, 10000-row scenario of the specification. -/
theorem c3_theorem (values : List α) (cols : Nat) (ch : List α)
    (hcols : cols ≤ 65) (hch : ch ∈ chunksOf 1000 values) :
    bindParamCount cols ch ≤ 65535 := by
  have h6 : (1000 : Nat) = 999 + 1 := by norm_num
  rw [h6] at hch
  have hlen := chunksOf_mem_length_le 999 values ch hch
  rw [bindParamCount]
  calc ch.length * cols ≤ 1000 * 65 := Nat.mul_le_mul (by omega) hcols
  _ ≤ 65535 := by norm_num

/-- C3 witness: the 60-column, 10000-row load of the specification keeps
every batch at 60000 bound parameters, under the ceiling. -/
theorem c3_theorem_witness :
    bindParamCount 60 (List.replicate 1000 (0 : Nat)) ≤ 65535 :=
  c3_theorem (List.replicate 10000 (0 : Nat)) 60 (List.replicate 1000 0) (by norm_num)
    (by
      have h6 : (1000 : Nat) = 999 + 1 := by norm_num
      have hr := chunksOf_replicate 999 (0 : Nat) 10
      norm_num at hr
      rw [h6, hr]
      exact List.mem_replicate.mpr ⟨by norm_num, rfl⟩)

/-- C4 counterexample: the source regex keeps underscores, so sanitize maps
a double underscore to itself, while the specification pipeline as worded
(replacement class a-z0-9) collapses it to a single underscore. -/
theorem c4_counterexample :
    sanitize "a__b" = "a__b" ∧ sanitizeSpecClaim "a__b" = "a_b" ∧
    sanitize "a__b" ≠ sanitizeSpecClaim "a__b" := by
  have h1 : sanitizeSpecClaim "a__b" = "a_b" := by
    rw [sanitizeSpecClaim, ← collapseRuns_eq_spec]
    decide
  refine ⟨by decide, h1, ?_⟩
  rw [h1]
  decide

/-- C4 (amended): sanitize equals the five-step specification pipeline once
the replacement class is widened to a-z0-9_, that is, once existing
underscores are kept rather than collapsed; as a Lean function it is pure
and deterministic. -/
theorem c4_theorem (s : String) : sanitize s = sanitizeSpecAmended s := by
  rw [sanitize, sanitizeSpecAmended, collapseRuns_eq_spec]

/-- C5: the column-mapping step throws its validation error exactly when no
destination column occurs among the sanitized headers — any non-empty
partial coverage never raises an error by itself. -/
theorem c5_theorem (t hd : List String) :
    (∃ e, mapColumnsStep t hd = Except.error e) ↔ ∀ c ∈ t, c ∉ hd := by
  rw [← insertColsOf_eq_nil_iff]
  constructor
  · rintro ⟨e, he⟩
    by_contra hne
    rw [mapColumnsStep] at he
    rw [if_neg (by simpa [List.isEmpty_iff] using hne)] at he
    exact Except.noConfusion he
  · intro hnil
    refine ⟨"Ninguna columna del CSV coincide con las columnas de public.raw_jira (tras sanitizar nombres).", ?_⟩
    rw [mapColumnsStep]
    rw [if_pos (by simpa [List.isEmpty_iff] using hnil)]


/-- C6 counterexample: two loads that differ only in the name of their
unmapped extra column produce the identical response, the bare success
object with the row count — so the unmapped header appears in no
ignored-header list (the response has no such field), contradicting the
claim that every unmapped header is reported with a reason. -/
theorem c6_counterexample :
    uploadResponse002 (fun _ => true) []
        [[("Sprint", some "s1"), ("Extra", some "x")]] ["sprint"] = ApiResponse.ok 1 ∧
    uploadResponse002 (fun _ => true) []
        [[("Sprint", some "s1"), ("Otra", some "x")]] ["sprint"] = ApiResponse.ok 1 ∧
    sanitize "Extra" ∉ ["sprint"] ∧ sanitize "Otra" ∉ ["sprint"] := by
  refine ⟨?_, ?_, by decide, by decide⟩
  · have hs := uploadResponse002_success [[("Sprint", some "s1"), ("Extra", some "x")]]
      ["sprint"] [] (by decide) (by decide) (by decide)
    simpa using hs
  · have hs := uploadResponse002_success [[("Sprint", some "s1"), ("Otra", some "x")]]
      ["sprint"] [] (by decide) (by decide) (by decide)
    simpa using hs

/-- C6 (amended): a load with an extra column absent from the destination
schema still completes, but the unmapped header is dropped silently: the
response is identical to the response of the same load without the extra
column — whatever the store does — and on an all-success run it is the bare
success object carrying only the inserted row count. -/
theorem c6_theorem (ok : SqlStmt (List (Option String)) → Bool)
    (records : List (List (String × Option String)))
    (tableColumns : List String) (db : List (List (Option String)))
    (x : String × Option String)
    (h1 : records ≠ []) (h2 : tableColumns ≠ [])
    (h3 : insertColsOf tableColumns (headerOf records) ≠ [])
    (hx : sanitize x.1 ∉ tableColumns) :
    uploadResponse002 ok db (records.map (fun r => r ++ [x])) tableColumns =
        uploadResponse002 ok db records tableColumns ∧
      uploadResponse002 (fun _ => true) db records tableColumns =
        ApiResponse.ok records.length := by
  refine ⟨?_, uploadResponse002_success records tableColumns db h1 h2 h3⟩
  have h1m : records.map (fun r => r ++ [x]) ≠ [] := by
    intro hmm
    exact h1 (List.map_eq_nil_iff.mp hmm)
  have hh := headerOf_map_append records x h1
  have hmseq : mapColumnsStep tableColumns (headerOf (records.map (fun r => r ++ [x]))) =
      mapColumnsStep tableColumns (headerOf records) := by
    rw [mapColumnsStep, mapColumnsStep, hh,
      insertColsOf_append_unmapped tableColumns (headerOf records) (sanitize x.1) hx]
  rw [uploadResponse002, uploadResponse002]
  rw [if_neg (by simpa [List.isEmpty_iff] using h1m)]
  rw [if_neg (by simpa [List.isEmpty_iff] using h2)]
  rw [if_neg (by simpa [List.isEmpty_iff] using h1)]
  rw [if_neg (by simpa [List.isEmpty_iff] using h2)]
  rw [hmseq]
  cases hm : mapColumnsStep tableColumns (headerOf records) with
  | error e => rfl
  | ok ic =>
    have hic := mapColumnsStep_ok_eq tableColumns (headerOf records) ic hm
    have hveq : (records.map (fun r => r ++ [x])).map (projectRow ic) =
        records.map (projectRow ic) := by
      rw [List.map_map]
      apply List.map_congr_left
      intro r hr
      have hxic : sanitize x.1 ∉ ic := by
        intro hmem
        rw [hic] at hmem
        exact hx (List.mem_filter.mp hmem).1
      exact projectRow_append_unmapped ic r x hxic
    exact congrArg (fun v =>
      match (uploadLoadB ok v db).2 with
      | Except.ok n => ApiResponse.ok n
      | Except.error e => ApiResponse.err e) hveq

/-- C6 witness: a concrete one-row load with an extra unmapped column
responds exactly like the load without it and succeeds with the count. -/
theorem c6_theorem_witness :
    uploadResponse002 (fun _ => true) []
        ([[("Sprint", some "s1")]].map (fun r => r ++ [("Extra", some "x")])) ["sprint"] =
      uploadResponse002 (fun _ => true) [] [[("Sprint", some "s1")]] ["sprint"] ∧
    uploadResponse002 (fun _ => true) [] [[("Sprint", some "s1")]] ["sprint"] =
      ApiResponse.ok 1 :=
  c6_theorem (fun _ => true) [[("Sprint", some "s1")]] ["sprint"] []
    ("Extra", some "x") (by decide) (by decide) (by decide) (by decide)

/-- C7 counterexample: in the store-visible event order of the part_001
handler (one batch), the runKpiSql invocation occurs strictly before
COMMIT, inside the load transaction — not strictly after it as the claim
states. -/
theorem c7_counterexample :
    (loadTrace001 1).indexOf LoadEvent.kpiHook <
      (loadTrace001 1).indexOf LoadEvent.commitTx ∧
    LoadEvent.kpiHook ∈ loadTrace001 1 := by
  decide

/-- C7 (amended): for every load, the part_001 handler invokes its KPI hook
inside the transaction, immediately before COMMIT; the hook body is
entirely commented out, so it executes no artifact SQL at all. -/
theorem c7_theorem (n : Nat) :
    (loadTrace001 n).indexOf LoadEvent.kpiHook <
      (loadTrace001 n).indexOf LoadEvent.commitTx ∧
    runKpiSqlStmts = [] := by
  obtain ⟨h1, h2⟩ := loadTrace001_positions n
  refine ⟨?_, rfl⟩
  rw [h1, h2]
  omega

/-- C8 counterexample: with the two artifacts supplied in reverse order and
the second one failing, the reported result is the bare error naming the
failing artifact; it is identical to the report of a run in which nothing
executed successfully, so the names executed before the failure are not
reported. -/
theorem c8_counterexample :
    rebuildAllKpis (some ["02_carry.sql", "01_plan.sql"]) (fun f => f == "01_plan.sql") =
      (["01_plan.sql", "02_carry.sql"], Except.error "02_carry.sql") ∧
    rebuildAllKpis (some ["02_carry.sql"]) (fun f => f == "01_plan.sql") =
      (["02_carry.sql"], Except.error "02_carry.sql") ∧
    (rebuildAllKpis (some ["02_carry.sql", "01_plan.sql"]) (fun f => f == "01_plan.sql")).2 =
      (rebuildAllKpis (some ["02_carry.sql"]) (fun f => f == "01_plan.sql")).2 := by
  refine ⟨rfl, rfl, rfl⟩

/-- C8 (amended): the rebuilder processes artifacts in lexicographic name
order regardless of the enumeration order they are supplied in, and stops
at the first failing artifact; on failure the report is only the error —
the names executed successfully before it are reported only by an
all-success run. -/
theorem c8_theorem (exec : String → Bool) (l₁ l₂ : List String) (h : l₁.Perm l₂) :
    rebuildAllKpis (some l₁) exec = rebuildAllKpis (some l₂) exec ∧
    (∀ e, (rebuildAllKpis (some l₁) exec).2 = Except.error e →
      exec e = false ∧ (rebuildAllKpis (some l₁) exec).1.getLast? = some e) := by
  constructor
  · have hs : sortFiles l₁ = sortFiles l₂ := sortFiles_perm_eq l₁ l₂ h
    rw [rebuildAllKpis, rebuildAllKpis]
    simp only [Option.getD_some]
    rw [hs]
  · intro e he
    exact runKpiFiles_error_stops exec (sortFiles ((some l₁).getD [])) e he

/-- C8 witness: the two artifacts of the specification example supplied in
reverse enumeration order rebuild identically to the sorted order. -/
theorem c8_theorem_witness :
    rebuildAllKpis (some ["02_carry.sql", "01_plan.sql"]) (fun _ => true) =
      rebuildAllKpis (some ["01_plan.sql", "02_carry.sql"]) (fun _ => true) :=
  (c8_theorem (fun _ => true) ["02_carry.sql", "01_plan.sql"]
    ["01_plan.sql", "02_carry.sql"] (List.Perm.swap "01_plan.sql" "02_carry.sql" [])).1

/-- C9 counterexample: the pick helper of the first api/upload.js variant
returns an empty-string cell verbatim, so the Resumen slot of the assembled
row binds the empty string, not null, contradicting the claim that every
empty-string cell is normalized to null before the mapper. -/
theorem c9_counterexample :
    assembleRowA [("Resumen", "")] =
      [none, none, none, some "", none, none, none, none, none, none] ∧
    toDb "" = none := by
  constructor
  · decide
  · decide

/-- C9 (amended): in the part_002 variant, whose parse applies the toDb
cast to every cell, no record value that reaches the mapper is the empty
string — empty cells are normalized to null there; the first api/upload.js
variant performs no such normalization. -/
theorem c9_theorem (headers : List String) (cells : List String) (k : String)
    (v : Option String)
    (h : objGet (parseRecord002 headers cells) k = some v) : v ≠ some "" := by
  rw [parseRecord002, objGet_parseRecordJs] at h
  obtain ⟨⟨a, b⟩, hp, hv⟩ := lastVal_mem k _ v h
  have h2 : b ∈ cells.map toDb := (List.of_mem_zip hp).2
  obtain ⟨c, hc, hcv⟩ := List.mem_map.mp h2
  intro he
  rw [he] at hv
  have hb : b = some "" := hv
  rw [hb] at hcv
  rw [toDb] at hcv
  by_cases hce : c = ""
  · rw [if_pos hce] at hcv
    exact Option.noConfusion hcv
  · rw [if_neg hce] at hcv
    exact hce (by simpa using hcv)

/-- C9 witness: a concrete non-empty cell reaches the part_002 mapper as a
non-empty value. -/
theorem c9_theorem_witness : (some "x" : Option String) ≠ some "" :=
  c9_theorem ["Estado"] ["x"] "Estado" (some "x") (by decide)

/-- C10: a failed readdir of the artifact directory is replaced by the
empty listing, so rebuildAllKpis returns the empty executed list with no
error, and every artifact whose SQL is handed to the store has a name
ending in .sql — other files are skipped without being executed. -/
theorem c10_theorem (exec : String → Bool) (listing : List String) (f : String)
    (hf : f ∈ (rebuildAllKpis (some listing) exec).1) :
    rebuildAllKpis none exec = ([], Except.ok []) ∧ endsWithSql f = true := by
  constructor
  · rfl
  · exact runKpiFiles_attempted_sql exec (sortFiles ((some listing).getD [])) f hf

/-- C10 witness: the missing-directory run is a successful no-op, and a
concrete executed artifact carries the .sql ending. -/
theorem c10_theorem_witness :
    rebuildAllKpis none (fun _ => true) = ([], Except.ok []) ∧
    endsWithSql "01_plan.sql" = true :=
  c10_theorem (fun _ => true) ["01_plan.sql"] "01_plan.sql" (by decide)

end Adn
